import Mathlib

/-!
Verification of the transifex-bulk-downloader core against its specification.

The development shallowly embeds the relevant parts of
`src/transifex-bulk-downloader.py` as executable Lean definitions:

* the quote sanitizer `_fix_config_quotes` (per-line rewriting of
  `resource_name` / `file_filter` / `source_file` values);
* the config parser `parse_existing_config_enhanced` and the reconciliation
  `check_existing_config_enhanced`;
* the progress-line parser `_process_line` and the monitored read loop of
  `_execute_with_progress_bars` together with the timeout mapping of
  `execute_bulk_download`;
* the per-project `tx add remote` wrapper `_add_single_project_with_lock`
  and the sequential batch driver `generate_config_for_projects`;
* the control-flow skeleton of `HybridTransifexDownloader.run`.

Text is modelled as `List Char`; Python's whitespace class is modelled by its
ASCII members; file-system and subprocess effects are modelled by explicit
outcome values passed to the embedded functions.
-/

namespace TxBulk

/-- Whitespace test matching Python's `str.strip` / regex `\s` on ASCII input:
space, tab, newline, carriage return, vertical tab and form feed. -/
def isPySpace (c : Char) : Bool :=
  c == ' ' || c == '\t' || c == '\n' || c == '\r' || c == Char.ofNat 11 || c == Char.ofNat 12

/-- The single-quote character `'` (the character the sanitizer replaces). -/
def pyQuote : Char := Char.ofNat 39

/-- The double-quote character `"` (not touched by the sanitizer). -/
def pyDQuote : Char := Char.ofNat 34

/-- Replacement applied by `value.replace("'", "_")`, one character at a time. -/
def fixChar (c : Char) : Char := if c = pyQuote then '_' else c

/-- Python `str.lstrip()` on a list of characters. -/
def lstrip (l : List Char) : List Char := l.dropWhile isPySpace

/-- Python `str.rstrip()` on a list of characters. -/
def rstrip (l : List Char) : List Char := (l.reverse.dropWhile isPySpace).reverse

/-- Python `str.strip()` on a list of characters. -/
def pyStrip (l : List Char) : List Char := rstrip (lstrip l)

/-- Value rewriting done by `_fix_config_quotes` on a matched line:
`match.group(2).strip().replace("'", "_")`. -/
def stripFix (v : List Char) : List Char := (pyStrip v).map fixChar

/-- Key of the `resource_name` pattern in `_fix_config_quotes`. -/
def rnKey : List Char := "resource_name".data

/-- Key of the `file_filter` alternative in `_fix_config_quotes`. -/
def ffKey : List Char := "file_filter".data

/-- Key of the `source_file` alternative in `_fix_config_quotes`. -/
def sfKey : List Char := "source_file".data

/-- Matcher for the anchored pattern `^(\s*KEY\s*=\s*)(.*)$` used by
`_fix_config_quotes` (with `re.MULTILINE`, i.e. applied to each line).
On success it returns `(group 1, group 2)`: the prefix up to and including the
whitespace after `=`, and the rest of the line.  The pattern is deterministic:
every `\s*` is a maximal whitespace run because the following literal starts
with a non-whitespace character, so no backtracking can produce a different
match. -/
def afterKey (key l : List Char) : List Char := (l.dropWhile isPySpace).drop key.length

/-- Characters after the `=` of a matched `key = value` line (still carrying
the whitespace that the greedy `\s*` after `=` will absorb into group 1). -/
def restVal (key l : List Char) : List Char := ((afterKey key l).dropWhile isPySpace).tail

def matchKeyVal (key l : List Char) : Option (List Char × List Char) :=
  if key.isPrefixOf (l.dropWhile isPySpace)
      ∧ ((afterKey key l).dropWhile isPySpace).head? = some '=' then
    some (l.takeWhile isPySpace ++ key ++ (afterKey key l).takeWhile isPySpace
            ++ '=' :: (restVal key l).takeWhile isPySpace,
          (restVal key l).dropWhile isPySpace)
  else none

/-- One `re.sub` replacement of `_fix_config_quotes` restricted to a single
line: if the line matches `^(\s*KEY\s*=\s*)(.*)$` it becomes
`group1 ++ group2.strip().replace("'", "_")`, otherwise it is unchanged. -/
def applyFix (key l : List Char) : List Char :=
  match matchKeyVal key l with
  | some (p, v) => p ++ stripFix v
  | none => l

/-- Effect of `_fix_config_quotes` on one line: the `resource_name`
substitution followed by the `(?:file_filter|source_file)` substitution
(the two alternatives cannot both match one line, and their composition in
either order is the regex alternation). -/
def fixLine (l : List Char) : List Char := applyFix sfKey (applyFix ffKey (applyFix rnKey l))

/-- The in-memory path of `_fix_config_quotes`, acting on the config file
split into lines: it rewrites every line and reports `true` exactly when the
resulting content differs from the original
(`if content != original_content`). -/
def fixConfigQuotes (lines : List (List Char)) : List (List Char) × Bool :=
  if lines.map fixLine = lines then (lines, false) else (lines.map fixLine, true)

/-- Config line whose `resource_name` value contains a double quote; the
sanitizer leaves it unchanged. -/
def ceC2Line : List Char := "resource_name = a".data ++ (pyDQuote :: "b".data)

/-- Config line whose `resource_name` value contains a single quote; the
sanitizer rewrites it. -/
def wC2Line : List Char := "resource_name = a".data ++ (pyQuote :: "b".data)

/-- Character class `[^:]` of the section-header regex. -/
def notColon (c : Char) : Bool := c != ':'

/-- Character class `[^\x5d]` (anything but a closing bracket) of the
section-header regex. -/
def notRBracket (c : Char) : Bool := c != ']'

/-- Organization group of a section-header match starting at the head of `l`. -/
def secOrg (l : List Char) : List Char := (l.drop 3).takeWhile notColon

/-- Characters after the organization group (expected to start with `:p:`). -/
def secRest1 (l : List Char) : List Char := (l.drop 3).dropWhile notColon

/-- Project group of a section-header match starting at the head of `l`. -/
def secProj (l : List Char) : List Char := ((secRest1 l).drop 3).takeWhile notColon

/-- Characters after the project group (expected to start with `:r:`). -/
def secRest2 (l : List Char) : List Char := ((secRest1 l).drop 3).dropWhile notColon

/-- Resource group of a section-header match starting at the head of `l`. -/
def secRes (l : List Char) : List Char := ((secRest2 l).drop 3).takeWhile notRBracket

/-- Characters after the resource group (expected to start with `]`). -/
def secRest3 (l : List Char) : List Char := ((secRest2 l).drop 3).dropWhile notRBracket

/-- Match of the pattern `\[o:([^:]+):p:([^:]+):r:([^\x5d]+)\]` anchored at the
head of `l`, returning the `(org, project, resource)` groups.  The pattern is
deterministic: each `+`-group is a maximal run of its character class because
the character that follows it in the pattern is excluded from the class, so no
backtracking can produce a different match. -/
def matchSectionAt (l : List Char) : Option (List Char × List Char × List Char) :=
  if l.take 3 = '[' :: 'o' :: [':']
      ∧ secOrg l ≠ [] ∧ (secRest1 l).take 3 = ':' :: 'p' :: [':']
      ∧ secProj l ≠ [] ∧ (secRest2 l).take 3 = ':' :: 'r' :: [':']
      ∧ secRes l ≠ [] ∧ (secRest3 l).take 1 = [']'] then
    some (secOrg l, secProj l, secRes l)
  else none

/-- Leftmost match of the section-header pattern in `l`
(`resource_pattern.search(line)` in `parse_existing_config_enhanced`). -/
def searchSection : List Char → Option (List Char × List Char × List Char)
  | [] => none
  | c :: t =>
      match matchSectionAt (c :: t) with
      | some x => some x
      | none => searchSection t

/-- One entry of `all_resources` built by `parse_existing_config_enhanced`. -/
structure ResourceEntry where
  project_slug : List Char
  resource_slug : List Char
  org_slug : List Char
  full_section : List Char
deriving DecidableEq

/-- Snapshot dictionary returned by `parse_existing_config_enhanced`. -/
structure ConfigAnalysis where
  config_exists : Bool
  config_age_hours : Option Int
  total_resources : Nat
  projects_with_resources : List (List Char × Nat)
  all_resources : List ResourceEntry
  configured_projects : Finset (List Char)

/-- Python dict update `d[p] = d.get(p, 0); d[p] += 1` on an insertion-ordered
association list. -/
def bump : List (List Char × Nat) → List Char → List (List Char × Nat)
  | [], k => [(k, 1)]
  | (k', n) :: t, k => if k' = k then (k', n + 1) :: t else (k', n) :: bump t k

/-- Accumulator of the parsing loop of `parse_existing_config_enhanced`. -/
structure ParseAcc where
  all_resources : List ResourceEntry
  projects_with_resources : List (List Char × Nat)
  configured_projects : Finset (List Char)

/-- Body of the per-line loop of `parse_existing_config_enhanced`: lines longer
than 10000 characters are skipped, and a section-header match whose
organization equals the configured organization appends one resource entry,
bumps the per-project count and records the project slug. -/
def parseLine (orgSlug : List Char) (acc : ParseAcc) (line : List Char) : ParseAcc :=
  if line.length > 10000 then acc
  else
    match searchSection line with
    | some (o, p, r) =>
        if o = orgSlug then
          { all_resources := acc.all_resources ++
              [⟨p, r, o, "o:".data ++ o ++ ":p:".data ++ p ++ ":r:".data ++ r⟩]
            projects_with_resources := bump acc.projects_with_resources p
            configured_projects := insert p acc.configured_projects }
        else acc
    | none => acc

/-- Line-count safety limit of `parse_existing_config_enhanced`.  The loop
breaks after the line whose 1-based number first exceeds this bound, so lines
`1 .. maxConfigLines + 1` are processed. -/
def maxConfigLines : Nat := 1000000

/-- State of the config file as seen by `parse_existing_config_enhanced`:
`ageHours` is the already-computed file age (`None` when `stat` failed) and
`readLines` is the outcome of opening and streaming the file — `Except.error`
models an exception raised anywhere inside the parsing `try` block. -/
structure FileInfo where
  ageHours : Option Int
  readLines : Except Unit (List (List Char))

/-- Embedding of `parse_existing_config_enhanced`: an absent file yields an
all-empty snapshot with `config_exists = false`; a parse exception yields an
all-empty snapshot with `config_exists = true` and the computed age; otherwise
the per-line loop runs over at most `maxConfigLines + 1` lines. -/
def parse_existing_config_enhanced (orgSlug : List Char) (file : Option FileInfo) :
    ConfigAnalysis :=
  match file with
  | none => ⟨false, none, 0, [], [], ∅⟩
  | some fi =>
    match fi.readLines with
    | Except.error _ => ⟨true, fi.ageHours, 0, [], [], ∅⟩
    | Except.ok lines =>
        let acc := (lines.take (maxConfigLines + 1)).foldl (parseLine orgSlug) ⟨[], [], ∅⟩
        ⟨true, fi.ageHours, acc.all_resources.length, acc.projects_with_resources,
         acc.all_resources, acc.configured_projects⟩

/-- Discovered project as used by `check_existing_config_enhanced`
(only the slug is consulted). -/
structure Project where
  slug : List Char
deriving DecidableEq

/-- Embedding of `check_existing_config_enhanced`: parses the config, returns
`(False, analysis, ∅, ∅)` when the file does not exist, `(True, analysis, ∅, ∅)`
when no projects are configured, and otherwise the two set differences
`discovered − configured` and `configured − discovered`. -/
def check_existing_config_enhanced (orgSlug : List Char) (file : Option FileInfo)
    (projects : List Project) :
    Bool × ConfigAnalysis × Finset (List Char) × Finset (List Char) :=
  if (parse_existing_config_enhanced orgSlug file).config_exists = false then
    (false, parse_existing_config_enhanced orgSlug file, ∅, ∅)
  else if (parse_existing_config_enhanced orgSlug file).configured_projects = ∅ then
    (true, parse_existing_config_enhanced orgSlug file, ∅, ∅)
  else
    (true, parse_existing_config_enhanced orgSlug file,
     (projects.map Project.slug).toFinset \
       (parse_existing_config_enhanced orgSlug file).configured_projects,
     (parse_existing_config_enhanced orgSlug file).configured_projects \
       (projects.map Project.slug).toFinset)

/-- Well-formed section header `[o:{org}:p:{project}:r:{resource}]` as written
by the external tool into the config file. -/
def mkHeader (o p r : List Char) : List Char :=
  '[' :: 'o' :: ':' :: (o ++ (':' :: 'p' :: ':' :: (p ++ (':' :: 'r' :: ':' :: (r ++ [']'])))))

/-- Sum of the per-project resource counts of a snapshot. -/
def sumCounts (m : List (List Char × Nat)) : Nat := (m.map Prod.snd).sum

/-- Config file state for the C1 counterexample: the file exists but contains
no section header, so the configured-project set is empty. -/
def ceC1File : Option FileInfo := some ⟨none, Except.ok []⟩

/-- Config file state for the C1 witness: one section header for organization
`o` and project `gamma`. -/
def w1File : Option FileInfo := some ⟨none, Except.ok ["[o:o:p:gamma:r:r1]".data]⟩

/-- Phase of the progress state machine in `_execute_with_progress_bars`. -/
inductive Phase
  | starting
  | info
  | downloading
deriving DecidableEq, Repr

/-- Observable console output of `_process_line`, one constructor per `print`
call (the dynamic elapsed-time decoration of a render is abstracted away; a
render event carries the `(current, total)` pair it displays). -/
inductive Emit
  | infoHeader
  | infoComplete (total : Nat)
  | downloadHeader
  | render (current total : Nat)
  | checkmark
  | errorLine (l : List Char)
  | summaryLine (l : List Char)
deriving DecidableEq, Repr

/-- Phase-transition marker emitted by the external tool before resource
discovery. -/
def infoMarker : List Char := "# Getting info about resources".data

/-- Phase-transition marker emitted by the external tool before pulling. -/
def pullMarker : List Char := "# Pulling files".data

/-- Error keywords of the `elif` branch of `_process_line`. -/
def errorKeywords : List (List Char) :=
  ["error:".data, "failed".data, "timeout".data, "warning:".data,
   "abort".data, "exception".data]

/-- Summary keywords of the final `elif` branch of `_process_line`. -/
def summaryKeywords : List (List Char) :=
  ["got info about resources:".data, "pulled files:".data]

/-- Python `str.lower()` on ASCII text. -/
def toLower (l : List Char) : List Char := l.map Char.toLower

/-- Python substring containment `p in s` (contiguous substring). -/
def containsSub (p : List Char) : List Char → Bool
  | [] => p.isPrefixOf []
  | c :: t => p.isPrefixOf (c :: t) || containsSub p t

/-- Python `any(pattern in s for pattern in pats)`. -/
def containsAny (pats : List (List Char)) (s : List Char) : Bool :=
  pats.any fun p => containsSub p s

/-- Conversion of a matched digit group to a number (`int(match.group(i))`). -/
def digitsToNat (ds : List Char) : Nat :=
  ds.foldl (fun n c => n * 10 + (c.toNat - '0'.toNat)) 0

/-- First digit group of a `(current / total)` match anchored at the head
of `l`. -/
def pairD1 (l : List Char) : List Char :=
  ((l.drop 1).dropWhile isPySpace).takeWhile Char.isDigit

/-- Characters after the first digit group (expected to start with `/`). -/
def pairRest1 (l : List Char) : List Char :=
  ((((l.drop 1).dropWhile isPySpace).dropWhile Char.isDigit).dropWhile isPySpace)

/-- Second digit group of a `(current / total)` match anchored at the head
of `l`. -/
def pairD2 (l : List Char) : List Char :=
  (((pairRest1 l).drop 1).dropWhile isPySpace).takeWhile Char.isDigit

/-- Characters after the second digit group (expected to start with `)`). -/
def pairRest2 (l : List Char) : List Char :=
  (((((pairRest1 l).drop 1).dropWhile isPySpace).dropWhile Char.isDigit).dropWhile isPySpace)

/-- Match of the pattern `\(\s*(\d+)\s*/\s*(\d+)\s*\)` anchored at the head of
`l`.  The pattern is deterministic: every `\s*` and `\d+` is a maximal run of
its class because the following literal is outside the class, so no
backtracking can produce a different match. -/
def matchPairAt (l : List Char) : Option (Nat × Nat) :=
  if l.take 1 = ['('] ∧ pairD1 l ≠ [] ∧ (pairRest1 l).take 1 = ['/']
      ∧ pairD2 l ≠ [] ∧ (pairRest2 l).take 1 = [')'] then
    some (digitsToNat (pairD1 l), digitsToNat (pairD2 l))
  else none

/-- Leftmost match of the `(current / total)` pattern
(`re.search` in `_process_line`). -/
def searchPair : List Char → Option (Nat × Nat)
  | [] => none
  | c :: t =>
      match matchPairAt (c :: t) with
      | some x => some x
      | none => searchPair t

/-- Phase-transition `if/elif` at the top of `_process_line`: the two literal
marker lines switch the phase, reset the phase start time to the current time,
reset the last-displayed pair to `(0, 0)` and print a phase header; entering
the pulling phase first prints a completion line for an unfinished info
phase. -/
def phaseTransition (now : Nat) (stripped : List Char) (phase : Phase)
    (phaseStart : Option Nat) (last : Option Nat × Option Nat) :
    Phase × Option Nat × (Option Nat × Option Nat) × List Emit :=
  if stripped = infoMarker then
    (Phase.info, some now, (some 0, some 0), [Emit.infoHeader])
  else if stripped = pullMarker then
    (Phase.downloading, some now, (some 0, some 0),
     (if phase = Phase.info ∧ 0 < (last.2).getD 0 ∧ (last.1).getD 0 < (last.2).getD 0 then
        [Emit.infoComplete ((last.2).getD 0)]
      else []) ++ [Emit.downloadHeader])
  else (phase, phaseStart, last, [])

/-- Embedding of `_process_line`: phase transitions, then the
`if "(" in line and "/" in line and ")" in line` pair branch (which renders
only when the extracted pair differs from the last displayed one, and adds a
checkmark when `current == total > 0`), then the error and summary `elif`
branches.  Returns the new `(phase, phase_start_time, last_displayed)` state
together with the emitted output. -/
def process_line (now : Nat) (line : List Char) (phase : Phase)
    (phaseStart : Option Nat) (last : Option Nat × Option Nat) :
    Phase × Option Nat × (Option Nat × Option Nat) × List Emit :=
  if '(' ∈ pyStrip line ∧ '/' ∈ pyStrip line ∧ ')' ∈ pyStrip line then
    match searchPair (pyStrip line) with
    | some (current, total) =>
        if some current ≠ (phaseTransition now (pyStrip line) phase phaseStart last).2.2.1.1
            ∨ some total ≠ (phaseTransition now (pyStrip line) phase phaseStart last).2.2.1.2 then
          ((phaseTransition now (pyStrip line) phase phaseStart last).1,
           (phaseTransition now (pyStrip line) phase phaseStart last).2.1,
           (some current, some total),
           (phaseTransition now (pyStrip line) phase phaseStart last).2.2.2
             ++ Emit.render current total ::
               (if current = total ∧ 0 < total then [Emit.checkmark] else []))
        else phaseTransition now (pyStrip line) phase phaseStart last
    | none => phaseTransition now (pyStrip line) phase phaseStart last
  else if pyStrip line ≠ [] ∧ containsAny errorKeywords (toLower (pyStrip line)) then
    ((phaseTransition now (pyStrip line) phase phaseStart last).1,
     (phaseTransition now (pyStrip line) phase phaseStart last).2.1,
     (phaseTransition now (pyStrip line) phase phaseStart last).2.2.1,
     (phaseTransition now (pyStrip line) phase phaseStart last).2.2.2
       ++ [Emit.errorLine (pyStrip line)])
  else if pyStrip line ≠ [] ∧ containsAny summaryKeywords (toLower (pyStrip line)) then
    ((phaseTransition now (pyStrip line) phase phaseStart last).1,
     (phaseTransition now (pyStrip line) phase phaseStart last).2.1,
     (phaseTransition now (pyStrip line) phase phaseStart last).2.2.1,
     (phaseTransition now (pyStrip line) phase phaseStart last).2.2.2
       ++ [Emit.summaryLine (pyStrip line)])
  else phaseTransition now (pyStrip line) phase phaseStart last

/-- State carried across iterations of the read loop of
`_execute_with_progress_bars`. -/
structure LoopState where
  phase : Phase
  phaseStart : Option Nat
  last : Option Nat × Option Nat
  error_lines : List (List Char)
deriving DecidableEq

/-- Initial state of the read loop: phase `starting`, no phase start time,
empty last-displayed dict and no stored error lines. -/
def initLoopState : LoopState := ⟨Phase.starting, none, (none, none), []⟩

/-- Keywords selecting which lines the read loop stores for the final error
report (`['error:', 'failed', 'exception']`, at most 20 lines). -/
def loopErrorKeywords : List (List Char) :=
  ["error:".data, "failed".data, "exception".data]

/-- Processing of one line inside the read loop: `_process_line` updates the
progress state, and the stripped line is stored when it contains an error
keyword and fewer than 20 error lines are stored. -/
def recordLine (st : LoopState) (now : Nat) (line : List Char) : LoopState :=
  ⟨(process_line now line st.phase st.phaseStart st.last).1,
   (process_line now line st.phase st.phaseStart st.last).2.1,
   (process_line now line st.phase st.phaseStart st.last).2.2.1,
   if containsAny loopErrorKeywords (toLower line) ∧ st.error_lines.length < 20 then
     st.error_lines ++ [pyStrip line]
   else st.error_lines⟩

/-- What one iteration of the read loop observes: a poll that returned no data
(the 0.1-second `select` timeout), a line of child output, or child exit with
the given return code (after which the loop drains and breaks). -/
inductive ReadEvent
  | noData
  | line (l : List Char)
  | closed (returncode : Int)
deriving DecidableEq

/-- Check whether a read event is the child-exit event. -/
def ReadEvent.isClosed : ReadEvent → Bool
  | .closed _ => true
  | _ => false

/-- The wall-clock hard ceiling of `_execute_with_progress_bars`
(`timeout = 7200`, two hours). -/
def hardTimeout : Nat := 7200

/-- Outcome of the read loop: the hard ceiling fired (`terminateSignalled`
records that `process.terminate()` was called, `handlesClosed` that the
`master_file.close()` / `os.close(master)` lines were reached, and a
`subprocess.TimeoutExpired` escapes either way), the child exited normally, or
the supplied event trace ran out with the loop still going. -/
inductive LoopOutcome
  | timedOut (terminateSignalled handlesClosed : Bool)
  | completed (st : LoopState) (returncode : Int)
  | running (st : LoopState)
deriving DecidableEq

/-- Embedding of the read loop of `_execute_with_progress_bars` over a trace of
timed read events: every iteration first compares the elapsed wall-clock time
against the hard ceiling (`time.time() - start_time > timeout`); otherwise it
handles the iteration's read.  On expiry the code runs `process.terminate()`
and then a bare `process.wait(timeout=5)`: `waitExits` says whether the child
exits within that 5-second grace period.  If it does, the handle-closing lines
run (each in its own `try/except: pass`) and `TimeoutExpired(cmd, timeout)` is
raised explicitly; if it does not, `wait` itself raises
`subprocess.TimeoutExpired` and the handle-closing lines are **skipped** — so
the handles are closed exactly when `waitExits` holds, while a
`subprocess.TimeoutExpired` escapes in both cases. -/
def runLoop (start : Nat) (waitExits : Bool) :
    List (Nat × ReadEvent) → LoopState → LoopOutcome
  | [], st => .running st
  | (t, ev) :: rest, st =>
      if t - start > hardTimeout then .timedOut true waitExits
      else
        match ev with
        | .noData => runLoop start waitExits rest st
        | .line l => runLoop start waitExits rest (recordLine st t l)
        | .closed rc => .completed st rc

/-- Final message of `execute_bulk_download`, one constructor per produced
message (dynamic durations and error excerpts abstracted away). -/
inductive DownloadMessage
  | timedOutAfterTwoHours
  | completedOk
  | failedWithCode (rc : Int)
deriving DecidableEq

/-- Outcome mapping of `execute_bulk_download` in filtered-output mode: a
`subprocess.TimeoutExpired` escaping the monitor (whether raised explicitly
after the cleanup or by the 5-second `process.wait`) is re-raised by the
monitor's `except subprocess.TimeoutExpired: raise` and caught here, reported
as `(False, "Download timed out after 2 hours")`; a completed child is judged
by its return code; `none` models a loop that has not returned yet. -/
def executeBulkDownloadFiltered (start : Nat) (waitExits : Bool)
    (events : List (Nat × ReadEvent)) (st : LoopState) :
    Option (Bool × DownloadMessage) :=
  match runLoop start waitExits events st with
  | .timedOut _ _ => some (false, .timedOutAfterTwoHours)
  | .completed _ rc =>
      some (if rc = 0 then (true, .completedOk) else (false, .failedWithCode rc))
  | .running _ => none

/-- Outcome of one `subprocess.run` of `tx add remote`: normal completion with
a return code and captured output, `subprocess.TimeoutExpired`, or any other
exception. -/
inductive CmdOutcome
  | completed (returncode : Int) (stdout stderr : List Char)
  | timeout
  | exc (msg : List Char)
deriving DecidableEq

/-- Number of non-overlapping occurrences of the marker `[o:` in the command's
stdout (`result.stdout.count('[o:')`). -/
def countMarkers : List Char → Nat
  | '[' :: 'o' :: ':' :: t => 1 + countMarkers t
  | _ :: t => countMarkers t
  | [] => 0

/-- Error-message component of the tuple returned by
`_add_single_project_with_lock`, one constructor per message shape. -/
inductive AddErrMsg
  | noMsg
  | fromOutput (s : List Char)
  | timeoutAfter (secs : Nat)
  | exceptionMsg (s : List Char)
deriving DecidableEq

/-- Python `a or b` on strings (empty string is falsy). -/
def pyOr (a b : List Char) : List Char := if a = [] then b else a

/-- Embedding of `_add_single_project_with_lock` as a function of the
subprocess outcome: success is `returncode == 0`; `resources_added` counts the
`[o:` markers in stdout on success and is `0` otherwise; a timeout or an
unexpected exception yields a per-project failure tuple with the message
captured (the `finally` lock-file cleanup has no effect on the returned
tuple). -/
def addSingleProject (addRemoteTimeout : Nat) (proj : Project) (outcome : CmdOutcome) :
    List Char × Bool × AddErrMsg × Nat :=
  match outcome with
  | .completed rc out err =>
      if rc = 0 then (proj.slug, true, .noMsg, countMarkers out)
      else (proj.slug, false, .fromOutput (pyOr (pyStrip err) (pyStrip out)), 0)
  | .timeout => (proj.slug, false, .timeoutAfter addRemoteTimeout, 0)
  | .exc m => (proj.slug, false, .exceptionMsg m, 0)

/-- Counters and per-project results accumulated by
`generate_config_for_projects`. -/
structure BatchCounters where
  added : Nat
  failed : Nat
  total_resources : Nat
  results : List (List Char × Bool × AddErrMsg × Nat)
deriving DecidableEq

/-- One iteration of the sequential loop of `generate_config_for_projects`:
a successful add bumps `added` and the resource total, a failed one bumps
`failed`; either way the per-project result is recorded and the loop moves to
the next project. -/
def batchStep (addRemoteTimeout : Nat) (acc : BatchCounters)
    (pr : Project × CmdOutcome) : BatchCounters :=
  if (addSingleProject addRemoteTimeout pr.1 pr.2).2.1 then
    ⟨acc.added + 1, acc.failed,
     acc.total_resources + (addSingleProject addRemoteTimeout pr.1 pr.2).2.2.2,
     acc.results ++ [addSingleProject addRemoteTimeout pr.1 pr.2]⟩
  else
    ⟨acc.added, acc.failed + 1, acc.total_resources,
     acc.results ++ [addSingleProject addRemoteTimeout pr.1 pr.2]⟩

/-- Embedding of `generate_config_for_projects`: the projects are processed
strictly sequentially, each paired with the outcome of its own `tx add remote`
invocation. -/
def generate_config_for_projects (addRemoteTimeout : Nat)
    (pairs : List (Project × CmdOutcome)) : BatchCounters :=
  pairs.foldl (batchStep addRemoteTimeout) ⟨0, 0, 0, []⟩

/-- Phase outcomes of one run of `HybridTransifexDownloader.run`, supplied as
an oracle: a `false` flag models the corresponding phase raising an exception
(caught by the `except` clauses of `run`). -/
structure RunEnv where
  validateOk : Bool
  discoverOk : Bool
  discovered : List Project
  setupOk : Bool
  skipConfig : Bool
  generateOk : Bool
  addedCount : Nat
  downloadSuccess : Bool
  reportWriteOk : Bool
deriving DecidableEq

/-- Observable outcome of one run: whether the `finally` cleanup ran, whether
`generate_download_report` was invoked, whether the report file write
succeeded (it is wrapped in its own `try/except: pass`), and the final
success/failure status it reported. -/
structure RunResult where
  cleanupRun : Bool
  reportAttempted : Bool
  reportWritten : Bool
  finalStatus : Option Bool
deriving DecidableEq

/-- Control-flow skeleton of `HybridTransifexDownloader.run`: each early
`return` and each exception path skips the remaining phases (including the
reporting phase) and falls through to the unconditional `finally` cleanup;
only a run that reaches phase 4 invokes `generate_download_report`. -/
def runPipeline (env : RunEnv) : RunResult :=
  if env.validateOk = false then ⟨true, false, false, none⟩
  else if env.discoverOk = false then ⟨true, false, false, none⟩
  else if env.discovered = [] then ⟨true, false, false, none⟩
  else if env.setupOk = false then ⟨true, false, false, none⟩
  else if env.skipConfig = false ∧ env.generateOk = false then ⟨true, false, false, none⟩
  else if env.skipConfig = false ∧ env.addedCount = 0 then ⟨true, false, false, none⟩
  else ⟨true, true, env.reportWriteOk, some env.downloadSuccess⟩

/-- Condition under which a run reaches the reporting phase. -/
def reachesReporting (env : RunEnv) : Prop :=
  env.validateOk = true ∧ env.discoverOk = true ∧ env.discovered ≠ [] ∧
    env.setupOk = true ∧
    (env.skipConfig = true ∨ (env.generateOk = true ∧ env.addedCount ≠ 0))

/-- Run environment for the C5 counterexample: token validation raises, so the
run stops in phase 1. -/
def ceC5Env : RunEnv := ⟨false, true, [⟨"a".data⟩], true, false, true, 1, true, true⟩

/-- Run environment for the C5 witness: every phase succeeds. -/
def wC5Env : RunEnv := ⟨true, true, [⟨"a".data⟩], true, true, true, 1, true, true⟩

theorem takeWhile_dropWhile_nil (p : α → Bool) (l : List α) :
    (l.dropWhile p).takeWhile p = [] := by
  induction l with
  | nil => rfl
  | cons a t ih =>
    by_cases h : p a
    · simpa [List.dropWhile_cons, h] using ih
    · simp [List.dropWhile_cons, List.takeWhile_cons, h]

theorem dropWhile_eq_self_of_takeWhile_nil {p : α → Bool} {l : List α}
    (h : l.takeWhile p = []) : l.dropWhile p = l := by
  cases l with
  | nil => rfl
  | cons a t =>
    by_cases ha : p a
    · simp [List.takeWhile_cons, ha] at h
    · simp [List.dropWhile_cons, ha]

theorem takeWhile_nil_of_isPre {p : α → Bool} {s l : List α}
    (hs : s <+: l) (h : l.takeWhile p = []) : s.takeWhile p = [] := by
  obtain ⟨t, rfl⟩ := hs
  cases s with
  | nil => rfl
  | cons a s' =>
    by_cases ha : p a
    · simp [List.takeWhile_cons, ha] at h
    · simp [List.takeWhile_cons, ha]

theorem rstrip_isPre (l : List Char) : rstrip l <+: l := by
  obtain ⟨u, hu⟩ := List.dropWhile_suffix (l := l.reverse) isPySpace
  refine ⟨u.reverse, ?_⟩
  have h2 := congrArg List.reverse hu
  simp only [List.reverse_append, List.reverse_reverse] at h2
  simp [rstrip]
  exact h2

theorem fixChar_space (c : Char) : isPySpace (fixChar c) = isPySpace c := by
  by_cases h : c = pyQuote
  · subst h; decide
  · simp [fixChar, h]

theorem fixChar_idem (c : Char) : fixChar (fixChar c) = fixChar c := by
  by_cases h : c = pyQuote
  · subst h; decide
  · simp [fixChar, h]

theorem fixChar_ne_quote (c : Char) : fixChar c ≠ pyQuote := by
  by_cases h : c = pyQuote
  · subst h; decide
  · simp only [fixChar, if_neg h]
    exact h

theorem quote_not_mem_stripFix (v : List Char) : pyQuote ∉ stripFix v := by
  intro hmem
  obtain ⟨c, -, hc⟩ := List.mem_map.mp hmem
  exact fixChar_ne_quote c hc

theorem pyStrip_takeWhile_nil (l : List Char) :
    (pyStrip l).takeWhile isPySpace = [] :=
  takeWhile_nil_of_isPre (rstrip_isPre (lstrip l)) (takeWhile_dropWhile_nil isPySpace l)

theorem stripFix_takeWhile_nil (v : List Char) :
    (stripFix v).takeWhile isPySpace = [] := by
  have h : isPySpace ∘ fixChar = isPySpace := funext fixChar_space
  simp [stripFix, List.takeWhile_map, h, pyStrip_takeWhile_nil]

theorem rstrip_rstrip (l : List Char) : rstrip (rstrip l) = rstrip l := by
  simp [rstrip, List.dropWhile_idempotent]

theorem pyStrip_pyStrip (l : List Char) : pyStrip (pyStrip l) = pyStrip l := by
  have h1 : lstrip (pyStrip l) = pyStrip l :=
    dropWhile_eq_self_of_takeWhile_nil (pyStrip_takeWhile_nil l)
  show rstrip (lstrip (pyStrip l)) = pyStrip l
  rw [h1]
  exact rstrip_rstrip (lstrip l)

theorem pyStrip_map_fixChar (l : List Char) :
    pyStrip (l.map fixChar) = (pyStrip l).map fixChar := by
  have h : isPySpace ∘ fixChar = isPySpace := funext fixChar_space
  simp [pyStrip, lstrip, rstrip, List.dropWhile_map, ← List.map_reverse, h]

theorem stripFix_stripFix (v : List Char) : stripFix (stripFix v) = stripFix v := by
  have h : fixChar ∘ fixChar = fixChar := funext fixChar_idem
  simp [stripFix, pyStrip_map_fixChar, pyStrip_pyStrip, List.map_map, h]

theorem matchKeyVal_decomp {key l p v : List Char} (h : matchKeyVal key l = some (p, v)) :
    ∃ ws1 ws2 ws3 : List Char,
      (∀ c ∈ ws1, isPySpace c) ∧ (∀ c ∈ ws2, isPySpace c) ∧ (∀ c ∈ ws3, isPySpace c) ∧
      p = ws1 ++ (key ++ (ws2 ++ ('=' :: ws3))) ∧ v.takeWhile isPySpace = [] := by
  unfold matchKeyVal at h
  split at h
  · simp only [Option.some.injEq, Prod.mk.injEq] at h
    obtain ⟨hp, hv⟩ := h
    refine ⟨l.takeWhile isPySpace, (afterKey key l).takeWhile isPySpace,
      (restVal key l).takeWhile isPySpace, ?_, ?_, ?_, ?_, ?_⟩
    · exact fun c hc => List.mem_takeWhile_imp hc
    · exact fun c hc => List.mem_takeWhile_imp hc
    · exact fun c hc => List.mem_takeWhile_imp hc
    · rw [← hp]
      simp [List.append_assoc]
    · rw [← hv]
      exact takeWhile_dropWhile_nil _ _
  · exact absurd h (by simp)

theorem matchKeyVal_build {c : Char} {t : List Char} (key : List Char)
    (hk : key = c :: t) (hc : isPySpace c = false)
    {ws1 ws2 ws3 w : List Char}
    (h1 : ∀ a ∈ ws1, isPySpace a) (h2 : ∀ a ∈ ws2, isPySpace a)
    (h3 : ∀ a ∈ ws3, isPySpace a) (hw : w.takeWhile isPySpace = []) :
    matchKeyVal key (ws1 ++ (key ++ (ws2 ++ ('=' :: (ws3 ++ w)))))
      = some (ws1 ++ (key ++ (ws2 ++ ('=' :: ws3))), w) := by
  have heqs : isPySpace '=' = false := by decide
  have hdw : (ws1 ++ (key ++ (ws2 ++ ('=' :: (ws3 ++ w))))).dropWhile isPySpace
      = key ++ (ws2 ++ ('=' :: (ws3 ++ w))) := by
    rw [List.dropWhile_append_of_pos h1, hk]
    simp [List.cons_append, List.dropWhile_cons, hc]
  have htw : (ws1 ++ (key ++ (ws2 ++ ('=' :: (ws3 ++ w))))).takeWhile isPySpace = ws1 := by
    rw [List.takeWhile_append_of_pos h1, hk]
    simp [List.cons_append, List.takeWhile_cons, hc]
  have hafter : afterKey key (ws1 ++ (key ++ (ws2 ++ ('=' :: (ws3 ++ w)))))
      = ws2 ++ ('=' :: (ws3 ++ w)) := by
    unfold afterKey
    rw [hdw]
    exact List.drop_left _ _
  have h5 : (ws2 ++ ('=' :: (ws3 ++ w))).dropWhile isPySpace = '=' :: (ws3 ++ w) := by
    rw [List.dropWhile_append_of_pos h2]
    simp [List.dropWhile_cons, heqs]
  have h6 : (ws2 ++ ('=' :: (ws3 ++ w))).takeWhile isPySpace = ws2 := by
    rw [List.takeWhile_append_of_pos h2]
    simp [List.takeWhile_cons, heqs]
  have hrest : restVal key (ws1 ++ (key ++ (ws2 ++ ('=' :: (ws3 ++ w))))) = ws3 ++ w := by
    unfold restVal
    rw [hafter, h5]
    rfl
  have h7 : (ws3 ++ w).takeWhile isPySpace = ws3 := by
    rw [List.takeWhile_append_of_pos h3, hw, List.append_nil]
  have h8 : (ws3 ++ w).dropWhile isPySpace = w := by
    rw [List.dropWhile_append_of_pos h3]
    exact dropWhile_eq_self_of_takeWhile_nil hw
  have hpre : key.isPrefixOf
      ((ws1 ++ (key ++ (ws2 ++ ('=' :: (ws3 ++ w))))).dropWhile isPySpace) := by
    rw [hdw, List.isPrefixOf_iff_prefix]
    exact ⟨ws2 ++ ('=' :: (ws3 ++ w)), rfl⟩
  have hhead : ((afterKey key (ws1 ++ (key ++ (ws2 ++ ('=' :: (ws3 ++ w)))))).dropWhile
      isPySpace).head? = some '=' := by
    rw [hafter, h5]
    rfl
  unfold matchKeyVal
  rw [if_pos ⟨hpre, hhead⟩, htw, hafter, h6, hrest, h7, h8]
  simp [List.append_assoc]

theorem matchKeyVal_none_of_head_ne {key2 : List Char} {c2 : Char} {t2 : List Char}
    (hk2 : key2 = c2 :: t2) {ws1 : List Char} {c : Char} {rest : List Char}
    (h1 : ∀ a ∈ ws1, isPySpace a) (hc : isPySpace c = false) (hne : c2 ≠ c) :
    matchKeyVal key2 (ws1 ++ c :: rest) = none := by
  have hn : ¬ (key2.isPrefixOf ((ws1 ++ c :: rest).dropWhile isPySpace)
      ∧ ((afterKey key2 (ws1 ++ c :: rest)).dropWhile isPySpace).head? = some '=') := by
    rintro ⟨hpre, -⟩
    rw [List.dropWhile_append_of_pos h1] at hpre
    simp only [List.dropWhile_cons, hc] at hpre
    rw [hk2, List.isPrefixOf_iff_prefix] at hpre
    exact hne (List.cons_prefix_cons.mp hpre).1
  unfold matchKeyVal
  rw [if_neg hn]

theorem applyFix_some {key l p v : List Char} (h : matchKeyVal key l = some (p, v)) :
    applyFix key l = p ++ stripFix v := by
  unfold applyFix
  rw [h]

theorem applyFix_none {key l : List Char} (h : matchKeyVal key l = none) :
    applyFix key l = l := by
  unfold applyFix
  rw [h]

theorem fixed_rematch {key : List Char} {c : Char} {t l p v : List Char}
    (hk : key = c :: t) (hc : isPySpace c = false)
    (h : matchKeyVal key l = some (p, v)) :
    matchKeyVal key (p ++ stripFix v) = some (p, stripFix v) := by
  obtain ⟨ws1, ws2, ws3, h1, h2, h3, hp, -⟩ := matchKeyVal_decomp h
  subst hp
  have hb := matchKeyVal_build key hk hc h1 h2 h3 (stripFix_takeWhile_nil v)
  have harg : (ws1 ++ (key ++ (ws2 ++ ('=' :: ws3)))) ++ stripFix v
      = ws1 ++ (key ++ (ws2 ++ ('=' :: (ws3 ++ stripFix v)))) := by
    simp [List.append_assoc]
  rw [harg]
  exact hb

theorem fixed_nomatch {key : List Char} {c : Char} {t : List Char}
    {key2 : List Char} {c2 : Char} {t2 : List Char} {l p v : List Char}
    (hk : key = c :: t) (hc : isPySpace c = false)
    (hk2 : key2 = c2 :: t2) (hne : c2 ≠ c)
    (h : matchKeyVal key l = some (p, v)) :
    matchKeyVal key2 (p ++ stripFix v) = none := by
  obtain ⟨ws1, ws2, ws3, h1, h2, h3, hp, -⟩ := matchKeyVal_decomp h
  subst hp
  have harg : (ws1 ++ (key ++ (ws2 ++ ('=' :: ws3)))) ++ stripFix v
      = ws1 ++ c :: (t ++ (ws2 ++ ('=' :: (ws3 ++ stripFix v)))) := by
    subst hk
    simp [List.append_assoc]
  rw [harg]
  exact matchKeyVal_none_of_head_ne hk2 h1 hc hne

theorem fixLine_of_rn {l p v : List Char} (h : matchKeyVal rnKey l = some (p, v)) :
    fixLine l = p ++ stripFix v
      ∧ matchKeyVal rnKey (fixLine l) = some (p, stripFix v)
      ∧ matchKeyVal ffKey (fixLine l) = none
      ∧ matchKeyVal sfKey (fixLine l) = none := by
  have hrn : rnKey = 'r' :: "esource_name".data := by decide
  have hff : ffKey = 'f' :: "ile_filter".data := by decide
  have hsf : sfKey = 's' :: "ource_file".data := by decide
  have hcr : isPySpace 'r' = false := by decide
  have hfl : fixLine l = p ++ stripFix v := by
    unfold fixLine
    rw [applyFix_some h,
        applyFix_none (fixed_nomatch hrn hcr hff (by decide) h),
        applyFix_none (fixed_nomatch hrn hcr hsf (by decide) h)]
  refine ⟨hfl, ?_, ?_, ?_⟩
  · rw [hfl]; exact fixed_rematch hrn hcr h
  · rw [hfl]; exact fixed_nomatch hrn hcr hff (by decide) h
  · rw [hfl]; exact fixed_nomatch hrn hcr hsf (by decide) h

theorem fixLine_of_ff {l p v : List Char} (hrn0 : matchKeyVal rnKey l = none)
    (h : matchKeyVal ffKey l = some (p, v)) :
    fixLine l = p ++ stripFix v
      ∧ matchKeyVal ffKey (fixLine l) = some (p, stripFix v)
      ∧ matchKeyVal rnKey (fixLine l) = none
      ∧ matchKeyVal sfKey (fixLine l) = none := by
  have hrn : rnKey = 'r' :: "esource_name".data := by decide
  have hff : ffKey = 'f' :: "ile_filter".data := by decide
  have hsf : sfKey = 's' :: "ource_file".data := by decide
  have hcf : isPySpace 'f' = false := by decide
  have hfl : fixLine l = p ++ stripFix v := by
    unfold fixLine
    rw [applyFix_none hrn0, applyFix_some h,
        applyFix_none (fixed_nomatch hff hcf hsf (by decide) h)]
  refine ⟨hfl, ?_, ?_, ?_⟩
  · rw [hfl]; exact fixed_rematch hff hcf h
  · rw [hfl]; exact fixed_nomatch hff hcf hrn (by decide) h
  · rw [hfl]; exact fixed_nomatch hff hcf hsf (by decide) h

theorem fixLine_of_sf {l p v : List Char} (hrn0 : matchKeyVal rnKey l = none)
    (hff0 : matchKeyVal ffKey l = none) (h : matchKeyVal sfKey l = some (p, v)) :
    fixLine l = p ++ stripFix v
      ∧ matchKeyVal sfKey (fixLine l) = some (p, stripFix v)
      ∧ matchKeyVal rnKey (fixLine l) = none
      ∧ matchKeyVal ffKey (fixLine l) = none := by
  have hrn : rnKey = 'r' :: "esource_name".data := by decide
  have hff : ffKey = 'f' :: "ile_filter".data := by decide
  have hsf : sfKey = 's' :: "ource_file".data := by decide
  have hcs : isPySpace 's' = false := by decide
  have hfl : fixLine l = p ++ stripFix v := by
    unfold fixLine
    rw [applyFix_none hrn0, applyFix_none hff0, applyFix_some h]
  refine ⟨hfl, ?_, ?_, ?_⟩
  · rw [hfl]; exact fixed_rematch hsf hcs h
  · rw [hfl]; exact fixed_nomatch hsf hcs hrn (by decide) h
  · rw [hfl]; exact fixed_nomatch hsf hcs hff (by decide) h

theorem fixLine_of_none {l : List Char} (hrn0 : matchKeyVal rnKey l = none)
    (hff0 : matchKeyVal ffKey l = none) (hsf0 : matchKeyVal sfKey l = none) :
    fixLine l = l := by
  unfold fixLine
  rw [applyFix_none hrn0, applyFix_none hff0, applyFix_none hsf0]

theorem fixLine_fixLine (l : List Char) : fixLine (fixLine l) = fixLine l := by
  cases hrn : matchKeyVal rnKey l with
  | some pv =>
    obtain ⟨p, v⟩ := pv
    obtain ⟨hfl, hre, -, -⟩ := fixLine_of_rn hrn
    obtain ⟨hfl2, -, -, -⟩ := fixLine_of_rn hre
    rw [hfl2, hfl, stripFix_stripFix]
  | none =>
    cases hff : matchKeyVal ffKey l with
    | some pv =>
      obtain ⟨p, v⟩ := pv
      obtain ⟨hfl, hre, hrnn, -⟩ := fixLine_of_ff hrn hff
      obtain ⟨hfl2, -, -, -⟩ := fixLine_of_ff hrnn hre
      rw [hfl2, hfl, stripFix_stripFix]
    | none =>
      cases hsf : matchKeyVal sfKey l with
      | some pv =>
        obtain ⟨p, v⟩ := pv
        obtain ⟨hfl, hre, hrnn, hffn⟩ := fixLine_of_sf hrn hff hsf
        obtain ⟨hfl2, -, -, -⟩ := fixLine_of_sf hrnn hffn hre
        rw [hfl2, hfl, stripFix_stripFix]
      | none =>
        have h1 : fixLine l = l := fixLine_of_none hrn hff hsf
        rw [h1, h1]

theorem fixLine_value_no_quote {l k p v : List Char}
    (hk : k = rnKey ∨ k = ffKey ∨ k = sfKey)
    (h : matchKeyVal k (fixLine l) = some (p, v)) : pyQuote ∉ v := by
  cases hrn : matchKeyVal rnKey l with
  | some pv =>
    obtain ⟨p0, v0⟩ := pv
    obtain ⟨-, hre, hffn, hsfn⟩ := fixLine_of_rn hrn
    rcases hk with rfl | rfl | rfl
    · rw [hre] at h
      simp only [Option.some.injEq, Prod.mk.injEq] at h
      rw [← h.2]
      exact quote_not_mem_stripFix v0
    · rw [hffn] at h
      exact absurd h (by simp)
    · rw [hsfn] at h
      exact absurd h (by simp)
  | none =>
    cases hff : matchKeyVal ffKey l with
    | some pv =>
      obtain ⟨p0, v0⟩ := pv
      obtain ⟨-, hre, hrnn, hsfn⟩ := fixLine_of_ff hrn hff
      rcases hk with rfl | rfl | rfl
      · rw [hrnn] at h
        exact absurd h (by simp)
      · rw [hre] at h
        simp only [Option.some.injEq, Prod.mk.injEq] at h
        rw [← h.2]
        exact quote_not_mem_stripFix v0
      · rw [hsfn] at h
        exact absurd h (by simp)
    | none =>
      cases hsf : matchKeyVal sfKey l with
      | some pv =>
        obtain ⟨p0, v0⟩ := pv
        obtain ⟨-, hre, hrnn, hffn⟩ := fixLine_of_sf hrn hff hsf
        rcases hk with rfl | rfl | rfl
        · rw [hrnn] at h
          exact absurd h (by simp)
        · rw [hffn] at h
          exact absurd h (by simp)
        · rw [hre] at h
          simp only [Option.some.injEq, Prod.mk.injEq] at h
          rw [← h.2]
          exact quote_not_mem_stripFix v0
      | none =>
        rw [fixLine_of_none hrn hff hsf] at h
        rcases hk with rfl | rfl | rfl
        · rw [hrn] at h
          exact absurd h (by simp)
        · rw [hff] at h
          exact absurd h (by simp)
        · rw [hsf] at h
          exact absurd h (by simp)

theorem fixConfigQuotes_fst (lines : List (List Char)) :
    (fixConfigQuotes lines).1 = lines.map fixLine := by
  unfold fixConfigQuotes
  split
  · rename_i h
    simp [h]
  · rfl

/-- C2 (amended): after one pass of `_fix_config_quotes` no single-quote
character remains in the value of any `resource_name`, `file_filter` or
`source_file` line, and the pass is idempotent: a second pass produces the
same content and returns `false` (unmodified). -/
theorem claim_C2_quote_sanitizer (lines : List (List Char)) :
    (fixConfigQuotes (fixConfigQuotes lines).1).1 = (fixConfigQuotes lines).1 ∧
    (fixConfigQuotes (fixConfigQuotes lines).1).2 = false ∧
    ∀ l ∈ (fixConfigQuotes lines).1, ∀ k p v : List Char,
      (k = rnKey ∨ k = ffKey ∨ k = sfKey) →
      matchKeyVal k l = some (p, v) → pyQuote ∉ v := by
  have hmapmap : (lines.map fixLine).map fixLine = lines.map fixLine := by
    rw [List.map_map]
    have hcomp : fixLine ∘ fixLine = fixLine := funext fixLine_fixLine
    rw [hcomp]
  have hsnd : fixConfigQuotes (lines.map fixLine) = (lines.map fixLine, false) := by
    unfold fixConfigQuotes
    rw [if_pos hmapmap]
  refine ⟨?_, ?_, ?_⟩
  · rw [fixConfigQuotes_fst lines, hsnd]
  · rw [fixConfigQuotes_fst lines, hsnd]
  · intro l hl k p v hk h
    rw [fixConfigQuotes_fst] at hl
    obtain ⟨l0, -, rfl⟩ := List.mem_map.mp hl
    exact fixLine_value_no_quote hk h

/-- C2 witness: on the concrete config `[wC2Line]` (a `resource_name` value
containing a single quote), the sanitized value `a_b` contains no single
quote. -/
theorem claim_C2_quote_sanitizer_witness : pyQuote ∉ ("a_b".data) :=
  (claim_C2_quote_sanitizer [wC2Line]).2.2 ("resource_name = a_b".data) (by decide)
    rnKey ("resource_name = ".data) ("a_b".data) (Or.inl rfl) (by decide)

/-- C2 counterexample: the claim that **no quote character** remains in a
sanitized value is false: `_fix_config_quotes` only replaces single quotes,
so a double quote in a `resource_name` value survives one pass untouched. -/
theorem claim_C2_counterexample :
    (fixConfigQuotes [ceC2Line]).1 = [ceC2Line] ∧
    matchKeyVal rnKey ceC2Line
      = some ("resource_name = ".data, "a".data ++ (pyDQuote :: "b".data)) ∧
    pyDQuote ∈ "a".data ++ (pyDQuote :: "b".data) := by decide

theorem sumCounts_bump (m : List (List Char × Nat)) (k : List Char) :
    sumCounts (bump m k) = sumCounts m + 1 := by
  induction m with
  | nil => rfl
  | cons a t ih =>
    obtain ⟨k', n⟩ := a
    unfold bump
    by_cases h : k' = k
    · rw [if_pos h]
      simp [sumCounts]
      omega
    · rw [if_neg h]
      simp [sumCounts] at ih ⊢
      omega

theorem parseLine_counts (org : List Char) (acc : ParseAcc) (line : List Char)
    (h : sumCounts acc.projects_with_resources = acc.all_resources.length) :
    sumCounts (parseLine org acc line).projects_with_resources
      = (parseLine org acc line).all_resources.length := by
  unfold parseLine
  split
  · exact h
  · split
    · split
      · simp only [sumCounts_bump, List.length_append, List.length_cons,
          List.length_nil, h]
      · exact h
    · exact h

theorem foldl_counts (org : List Char) (lines : List (List Char)) (acc : ParseAcc)
    (h : sumCounts acc.projects_with_resources = acc.all_resources.length) :
    sumCounts ((lines.foldl (parseLine org) acc).projects_with_resources)
      = ((lines.foldl (parseLine org) acc).all_resources).length := by
  induction lines generalizing acc with
  | nil => exact h
  | cons l t ih => exact ih _ (parseLine_counts org acc l h)

theorem parse_counts (org : List Char) (file : Option FileInfo) :
    sumCounts (parse_existing_config_enhanced org file).projects_with_resources
      = (parse_existing_config_enhanced org file).all_resources.length := by
  cases file with
  | none => rfl
  | some fi =>
    obtain ⟨age, rl⟩ := fi
    cases rl with
    | error u => rfl
    | ok ls => exact foldl_counts org (ls.take (maxConfigLines + 1)) ⟨[], [], ∅⟩ rfl

theorem matchSectionAt_mkHeader {o p r : List Char}
    (ho : o ≠ []) (hp : p ≠ []) (hr : r ≠ [])
    (hoc : ∀ c ∈ o, c ≠ ':') (hpc : ∀ c ∈ p, c ≠ ':') (hrc : ∀ c ∈ r, c ≠ ']') :
    matchSectionAt (mkHeader o p r) = some (o, p, r) := by
  have hcolon : notColon ':' = false := by decide
  have hbr : notRBracket ']' = false := by decide
  have honc : ∀ c ∈ o, notColon c := fun c hc => by simp [notColon, hoc c hc]
  have hpnc : ∀ c ∈ p, notColon c := fun c hc => by simp [notColon, hpc c hc]
  have hrnb : ∀ c ∈ r, notRBracket c := fun c hc => by simp [notRBracket, hrc c hc]
  have hdrop3 : (mkHeader o p r).drop 3
      = o ++ (':' :: 'p' :: ':' :: (p ++ (':' :: 'r' :: ':' :: (r ++ [']'])))) := rfl
  have horg : secOrg (mkHeader o p r) = o := by
    unfold secOrg
    rw [hdrop3, List.takeWhile_append_of_pos honc]
    simp [List.takeWhile_cons, hcolon]
  have hrest1 : secRest1 (mkHeader o p r)
      = ':' :: 'p' :: ':' :: (p ++ (':' :: 'r' :: ':' :: (r ++ [']']))) := by
    unfold secRest1
    rw [hdrop3, List.dropWhile_append_of_pos honc]
    simp [List.dropWhile_cons, hcolon]
  have hrest1drop : (secRest1 (mkHeader o p r)).drop 3
      = p ++ (':' :: 'r' :: ':' :: (r ++ [']'])) := by
    rw [hrest1]
    rfl
  have hproj : secProj (mkHeader o p r) = p := by
    unfold secProj
    rw [hrest1drop, List.takeWhile_append_of_pos hpnc]
    simp [List.takeWhile_cons, hcolon]
  have hrest2 : secRest2 (mkHeader o p r) = ':' :: 'r' :: ':' :: (r ++ [']']) := by
    unfold secRest2
    rw [hrest1drop, List.dropWhile_append_of_pos hpnc]
    simp [List.dropWhile_cons, hcolon]
  have hrest2drop : (secRest2 (mkHeader o p r)).drop 3 = r ++ [']'] := by
    rw [hrest2]
    rfl
  have hres : secRes (mkHeader o p r) = r := by
    unfold secRes
    rw [hrest2drop, List.takeWhile_append_of_pos hrnb]
    simp [List.takeWhile_cons, hbr]
  have hrest3 : secRest3 (mkHeader o p r) = [']'] := by
    unfold secRest3
    rw [hrest2drop, List.dropWhile_append_of_pos hrnb]
    simp [List.dropWhile_cons, hbr]
  unfold matchSectionAt
  rw [if_pos]
  · rw [horg, hproj, hres]
  · refine ⟨rfl, ?_, ?_, ?_, ?_, ?_, ?_⟩
    · rw [horg]; exact ho
    · rw [hrest1]; rfl
    · rw [hproj]; exact hp
    · rw [hrest2]; rfl
    · rw [hres]; exact hr
    · rw [hrest3]; rfl

theorem searchSection_mkHeader {o p r : List Char}
    (ho : o ≠ []) (hp : p ≠ []) (hr : r ≠ [])
    (hoc : ∀ c ∈ o, c ≠ ':') (hpc : ∀ c ∈ p, c ≠ ':') (hrc : ∀ c ∈ r, c ≠ ']') :
    searchSection (mkHeader o p r) = some (o, p, r) := by
  have hm := matchSectionAt_mkHeader ho hp hr hoc hpc hrc
  have hcons : mkHeader o p r
      = '[' :: ('o' :: (':' :: (o ++ (':' :: 'p' :: ':' ::
          (p ++ (':' :: 'r' :: ':' :: (r ++ [']']))))))) := rfl
  rw [hcons]
  unfold searchSection
  rw [← hcons, hm]

theorem parseLine_mkHeader (org : List Char) (acc : ParseAcc) {p r : List Char}
    (ho : org ≠ []) (hoc : ∀ c ∈ org, c ≠ ':')
    (hp : p ≠ []) (hr : r ≠ [])
    (hpc : ∀ c ∈ p, c ≠ ':') (hrc : ∀ c ∈ r, c ≠ ']')
    (hlen : (mkHeader org p r).length ≤ 10000) :
    parseLine org acc (mkHeader org p r)
      = ⟨acc.all_resources ++
            [⟨p, r, org, "o:".data ++ org ++ ":p:".data ++ p ++ ":r:".data ++ r⟩],
         bump acc.projects_with_resources p,
         insert p acc.configured_projects⟩ := by
  unfold parseLine
  rw [if_neg (Nat.not_lt.mpr hlen), searchSection_mkHeader ho hp hr hoc hpc hrc]
  dsimp only
  rw [if_pos rfl]

theorem foldl_mkHeaders_length (org : List Char)
    (ho : org ≠ []) (hoc : ∀ c ∈ org, c ≠ ':')
    (prs : List (List Char × List Char))
    (hwf : ∀ x ∈ prs, x.1 ≠ [] ∧ x.2 ≠ [] ∧ (∀ c ∈ x.1, c ≠ ':') ∧
       (∀ c ∈ x.2, c ≠ ']') ∧ (mkHeader org x.1 x.2).length ≤ 10000)
    (acc : ParseAcc) :
    (((prs.map fun x => mkHeader org x.1 x.2).foldl (parseLine org) acc).all_resources).length
      = acc.all_resources.length + prs.length := by
  induction prs generalizing acc with
  | nil => simp
  | cons hd tl ih =>
    obtain ⟨hp, hr, hpc, hrc, hlen⟩ := hwf hd (by simp)
    rw [List.map_cons, List.foldl_cons,
      parseLine_mkHeader org acc ho hoc hp hr hpc hrc hlen,
      ih (fun x hx => hwf x (by simp [hx]))]
    simp
    omega

/-- C7: for every snapshot produced by `parse_existing_config_enhanced` the
per-project resource counts sum to the length of `all_resources`; and parsing
a file of `N` well-formed section headers for the configured organization
yields `all_resources` of length `N` with counts summing to `N`. -/
theorem claim_C7_resource_counts (org : List Char) (file : Option FileInfo)
    (age : Option Int) (prs : List (List Char × List Char))
    (ho : org ≠ []) (hoc : ∀ c ∈ org, c ≠ ':')
    (hwf : ∀ x ∈ prs, x.1 ≠ [] ∧ x.2 ≠ [] ∧ (∀ c ∈ x.1, c ≠ ':') ∧
       (∀ c ∈ x.2, c ≠ ']') ∧ (mkHeader org x.1 x.2).length ≤ 10000)
    (hlen : prs.length ≤ maxConfigLines + 1) :
    sumCounts (parse_existing_config_enhanced org file).projects_with_resources
      = (parse_existing_config_enhanced org file).all_resources.length
    ∧ (parse_existing_config_enhanced org
        (some ⟨age, Except.ok (prs.map fun x => mkHeader org x.1 x.2)⟩)).all_resources.length
      = prs.length
    ∧ sumCounts (parse_existing_config_enhanced org
        (some ⟨age, Except.ok (prs.map fun x => mkHeader org x.1 x.2)⟩)).projects_with_resources
      = prs.length := by
  have htake : (prs.map fun x => mkHeader org x.1 x.2).take (maxConfigLines + 1)
      = prs.map fun x => mkHeader org x.1 x.2 :=
    List.take_of_length_le (by simpa using hlen)
  have hlen2 : (parse_existing_config_enhanced org
      (some ⟨age, Except.ok (prs.map fun x => mkHeader org x.1 x.2)⟩)).all_resources.length
      = prs.length := by
    show (((prs.map fun x => mkHeader org x.1 x.2).take
        (maxConfigLines + 1)).foldl (parseLine org) ⟨[], [], ∅⟩).all_resources.length
      = prs.length
    rw [htake, foldl_mkHeaders_length org ho hoc prs hwf]
    simp
  exact ⟨parse_counts org file, hlen2, by rw [parse_counts, hlen2]⟩

/-- C7 witness: a concrete two-header config for organization `og` parses to
two resources whose per-project counts sum to two. -/
theorem claim_C7_resource_counts_witness :
    (parse_existing_config_enhanced ("og".data)
        (some ⟨none, Except.ok ([(("p1".data, "r1".data)), (("p1".data, "r2".data))].map
          fun x => mkHeader ("og".data) x.1 x.2)⟩)).all_resources.length = 2 :=
  (claim_C7_resource_counts ("og".data) none none
    [(("p1".data, "r1".data)), (("p1".data, "r2".data))]
    (by decide) (by decide) (by decide) (by decide)).2.1

/-- C6: the parser is total: an absent file yields the all-empty snapshot with
`config_exists = false`, and a parse exception yields the best-effort empty
snapshot (with the file age preserved) instead of propagating. -/
theorem claim_C6_parser_total (org : List Char) (file : Option FileInfo) :
    (file = none →
      parse_existing_config_enhanced org file = ⟨false, none, 0, [], [], ∅⟩) ∧
    (∀ fi : FileInfo, ∀ e : Unit, file = some fi → fi.readLines = Except.error e →
      parse_existing_config_enhanced org file = ⟨true, fi.ageHours, 0, [], [], ∅⟩) := by
  constructor
  · rintro rfl
    rfl
  · rintro ⟨age, rl⟩ e rfl herr
    cases rl with
    | error u => rfl
    | ok ls => simp at herr

/-- C6 witness: the concrete empty path and a concrete erroring file. -/
theorem claim_C6_parser_total_witness :
    parse_existing_config_enhanced ("o".data) none = ⟨false, none, 0, [], [], ∅⟩ :=
  (claim_C6_parser_total ("o".data) none).1 rfl

/-- C10: the `config_exists` flag is true exactly when the file exists, and on
the parse-exception path the snapshot still reports `config_exists = true`
and keeps the computed file age. -/
theorem claim_C10_exists_flag (org : List Char) (file : Option FileInfo) :
    (parse_existing_config_enhanced org file).config_exists = file.isSome ∧
    (∀ fi : FileInfo, ∀ e : Unit, file = some fi → fi.readLines = Except.error e →
      (parse_existing_config_enhanced org file).config_exists = true ∧
      (parse_existing_config_enhanced org file).config_age_hours = fi.ageHours) := by
  constructor
  · cases file with
    | none => rfl
    | some fi =>
      obtain ⟨age, rl⟩ := fi
      cases rl <;> rfl
  · rintro ⟨age, rl⟩ e rfl herr
    cases rl with
    | error u => exact ⟨rfl, rfl⟩
    | ok ls => simp at herr

/-- C10 witness: a concrete file whose read raises keeps `exists = true` and
its age. -/
theorem claim_C10_exists_flag_witness :
    (parse_existing_config_enhanced ("o".data)
        (some ⟨some 3, Except.error ()⟩)).config_exists = true ∧
    (parse_existing_config_enhanced ("o".data)
        (some ⟨some 3, Except.error ()⟩)).config_age_hours
      = (⟨some 3, Except.error ()⟩ : FileInfo).ageHours :=
  (claim_C10_exists_flag ("o".data) (some ⟨some 3, Except.error ()⟩)).2
    ⟨some 3, Except.error ()⟩ () rfl rfl

theorem parse_not_exists_empty (org : List Char) (file : Option FileInfo)
    (h : (parse_existing_config_enhanced org file).config_exists = false) :
    (parse_existing_config_enhanced org file).configured_projects = ∅ := by
  cases file with
  | none => rfl
  | some fi =>
    obtain ⟨age, rl⟩ := fi
    cases rl with
    | error u => simp [parse_existing_config_enhanced] at h
    | ok ls => simp [parse_existing_config_enhanced] at h

/-- C1 (amended): the two sets returned by `check_existing_config_enhanced`
are always disjoint, and whenever the parsed snapshot has a nonempty
configured-project set they are exactly `discovered − configured` and
`configured − discovered`.  (When the config file is absent or configures no
project, the function returns two empty sets instead — see the
counterexample.) -/
theorem claim_C1_reconciliation (org : List Char) (file : Option FileInfo)
    (projects : List Project) :
    (check_existing_config_enhanced org file projects).2.2.1 ∩
      (check_existing_config_enhanced org file projects).2.2.2 = ∅ ∧
    ((parse_existing_config_enhanced org file).configured_projects ≠ ∅ →
      (check_existing_config_enhanced org file projects).2.2.1
        = (projects.map Project.slug).toFinset \
            (parse_existing_config_enhanced org file).configured_projects ∧
      (check_existing_config_enhanced org file projects).2.2.2
        = (parse_existing_config_enhanced org file).configured_projects \
            (projects.map Project.slug).toFinset) := by
  unfold check_existing_config_enhanced
  split
  · rename_i h
    exact ⟨by simp, fun hne => absurd (parse_not_exists_empty org file h) hne⟩
  · split
    · rename_i h hempty
      exact ⟨by simp, fun hne => absurd hempty hne⟩
    · rename_i h hne0
      refine ⟨?_, fun hne => ⟨rfl, rfl⟩⟩
      rw [← Finset.disjoint_iff_inter_eq_empty]
      exact disjoint_sdiff_sdiff

/-- C1 witness: with one configured project `gamma` and one discovered project
`alpha`, the returned sets are exactly the two set differences. -/
theorem claim_C1_reconciliation_witness :
    (check_existing_config_enhanced ("o".data) w1File [⟨"alpha".data⟩]).2.2.1
      = (([⟨"alpha".data⟩] : List Project).map Project.slug).toFinset \
          (parse_existing_config_enhanced ("o".data) w1File).configured_projects ∧
    (check_existing_config_enhanced ("o".data) w1File [⟨"alpha".data⟩]).2.2.2
      = (parse_existing_config_enhanced ("o".data) w1File).configured_projects \
          (([⟨"alpha".data⟩] : List Project).map Project.slug).toFinset :=
  (claim_C1_reconciliation ("o".data) w1File [⟨"alpha".data⟩]).2 (by decide)

/-- C1 counterexample: when the config file exists but configures no project
(`C = ∅`), `check_existing_config_enhanced` returns `missingProjects = ∅`
even though `D − C = {alpha} ≠ ∅`, so the claim's unconditional
`missing = D − C` is false. -/
theorem claim_C1_counterexample :
    (check_existing_config_enhanced ("o".data) ceC1File [⟨"alpha".data⟩]).2.2.1 = ∅ ∧
    (([⟨"alpha".data⟩] : List Project).map Project.slug).toFinset \
        (parse_existing_config_enhanced ("o".data) ceC1File).configured_projects
      ≠ (∅ : Finset (List Char)) := by decide

theorem matchPairAt_mem {l : List Char} {x : Nat × Nat} (h : matchPairAt l = some x) :
    '(' ∈ l ∧ '/' ∈ l ∧ ')' ∈ l := by
  unfold matchPairAt at h
  split at h
  · rename_i hc
    obtain ⟨h1, -, h3, -, h5⟩ := hc
    have hr1 : pairRest1 l <:+ l := by
      unfold pairRest1
      exact ((List.dropWhile_suffix _).trans
        ((List.dropWhile_suffix _).trans
          ((List.dropWhile_suffix _).trans (List.drop_suffix 1 l))))
    have hr2 : pairRest2 l <:+ l := by
      unfold pairRest2
      exact ((List.dropWhile_suffix _).trans
        ((List.dropWhile_suffix _).trans
          ((List.dropWhile_suffix _).trans
            ((List.drop_suffix 1 (pairRest1 l)).trans hr1))))
    refine ⟨?_, ?_, ?_⟩
    · exact List.take_subset 1 l (by rw [h1]; exact List.mem_singleton.mpr rfl)
    · exact hr1.subset (List.take_subset 1 (pairRest1 l)
        (by rw [h3]; exact List.mem_singleton.mpr rfl))
    · exact hr2.subset (List.take_subset 1 (pairRest2 l)
        (by rw [h5]; exact List.mem_singleton.mpr rfl))
  · exact absurd h (by simp)

theorem searchPair_mem {s : List Char} {x : Nat × Nat} (h : searchPair s = some x) :
    '(' ∈ s ∧ '/' ∈ s ∧ ')' ∈ s := by
  induction s with
  | nil => simp [searchPair] at h
  | cons c t ih =>
    unfold searchPair at h
    cases hm : matchPairAt (c :: t) with
    | some y =>
      rw [hm] at h
      exact matchPairAt_mem hm
    | none =>
      rw [hm] at h
      obtain ⟨m1, m2, m3⟩ := ih h
      exact ⟨List.mem_cons_of_mem c m1, List.mem_cons_of_mem c m2,
        List.mem_cons_of_mem c m3⟩

theorem phaseTransition_no_paren {now : Nat} {stripped : List Char} {phase : Phase}
    {phaseStart : Option Nat} {last : Option Nat × Option Nat}
    (h : '(' ∈ stripped) :
    phaseTransition now stripped phase phaseStart last
      = (phase, phaseStart, last, []) := by
  have h1 : stripped ≠ infoMarker := by
    intro he
    rw [he] at h
    exact absurd h (by decide)
  have h2 : stripped ≠ pullMarker := by
    intro he
    rw [he] at h
    exact absurd h (by decide)
  unfold phaseTransition
  rw [if_neg h1, if_neg h2]

/-- C8: for a line whose stripped text contains a `(current / total)` pattern,
`_process_line` updates the last-displayed pair and renders only when the pair
differs from the last displayed one — feeding an identical pair changes
nothing and emits nothing — and a changed pair with `current = total > 0`
additionally emits the completion checkmark. -/
theorem claim_C8_progress_render (now : Nat) (line : List Char) (phase : Phase)
    (phaseStart : Option Nat) (last : Option Nat × Option Nat) (c t : Nat)
    (hs : searchPair (pyStrip line) = some (c, t)) :
    (last = (some c, some t) →
      process_line now line phase phaseStart last = (phase, phaseStart, last, [])) ∧
    (last ≠ (some c, some t) →
      (process_line now line phase phaseStart last).2.2.1 = (some c, some t) ∧
      Emit.render c t ∈ (process_line now line phase phaseStart last).2.2.2 ∧
      (c = t → 0 < t →
        Emit.checkmark ∈ (process_line now line phase phaseStart last).2.2.2)) := by
  have hmem := searchPair_mem hs
  have hpt : phaseTransition now (pyStrip line) phase phaseStart last
      = (phase, phaseStart, last, []) := phaseTransition_no_paren hmem.1
  unfold process_line
  rw [if_pos hmem, hs, hpt]
  dsimp only
  constructor
  · rintro rfl
    rw [if_neg]
    simp
  · intro hne
    rw [if_pos]
    · refine ⟨rfl, by simp, fun hc ht => ?_⟩
      rw [if_pos ⟨hc, ht⟩]
      simp
    · rcases last with ⟨l1, l2⟩
      by_cases h1 : some c = l1
      · subst h1
        right
        intro h2
        have h2x : l2 = some t := h2.symm
        exact hne (by rw [h2x])
      · left
        exact h1

/-- C8 witness: feeding `(5 / 10)` while downloading renders and stores the
pair, feeding the identical pair again emits nothing, and `(10 / 10)` emits
the completion checkmark. -/
theorem claim_C8_progress_render_witness :
    (process_line 0 ("(5 / 10)".data) Phase.downloading (some 0)
        (some 0, some 0)).2.2.1 = (some 5, some 10) ∧
    Emit.render 5 10 ∈ (process_line 0 ("(5 / 10)".data) Phase.downloading (some 0)
        (some 0, some 0)).2.2.2 ∧
    process_line 0 ("(5 / 10)".data) Phase.downloading (some 0) (some 5, some 10)
        = (Phase.downloading, some 0, (some 5, some 10), []) ∧
    Emit.checkmark ∈ (process_line 0 ("(10 / 10)".data) Phase.downloading (some 0)
        (some 5, some 10)).2.2.2 := by
  have h1 := claim_C8_progress_render 0 ("(5 / 10)".data) Phase.downloading (some 0)
    (some 0, some 0) 5 10 (by decide)
  have h2 := claim_C8_progress_render 0 ("(5 / 10)".data) Phase.downloading (some 0)
    (some 5, some 10) 5 10 (by decide)
  have h3 := claim_C8_progress_render 0 ("(10 / 10)".data) Phase.downloading (some 0)
    (some 5, some 10) 10 10 (by decide)
  obtain ⟨ha, hb, -⟩ := h1.2 (by decide)
  exact ⟨ha, hb, h2.1 rfl, ((h3.2 (by decide)).2.2 rfl (by decide))⟩

theorem runLoop_timeout (start : Nat) (waitExits : Bool) :
    ∀ (events : List (Nat × ReadEvent)) (st : LoopState),
      (∀ e ∈ events, e.2.isClosed = false) →
      (∃ e ∈ events, start + hardTimeout < e.1) →
      runLoop start waitExits events st = LoopOutcome.timedOut true waitExits
  | [], _, _, hlate => by simp at hlate
  | (t, ev) :: rest, st, halive, hlate => by
    by_cases htime : t - start > hardTimeout
    · unfold runLoop
      rw [if_pos htime]
    · have hlate2 : ∃ e ∈ rest, start + hardTimeout < e.1 := by
        rcases hlate with ⟨e, he, hlt⟩
        rcases List.mem_cons.mp he with rfl | hm
        · have hlt2 : start + hardTimeout < t := hlt
          omega
        · exact ⟨e, hm, hlt⟩
      have halive2 : ∀ e ∈ rest, e.2.isClosed = false :=
        fun e he => halive e (List.mem_cons_of_mem _ he)
      cases ev with
      | noData =>
        unfold runLoop
        rw [if_neg htime]
        exact runLoop_timeout start waitExits rest st halive2 hlate2
      | line l =>
        unfold runLoop
        rw [if_neg htime]
        exact runLoop_timeout start waitExits rest (recordLine st t l) halive2 hlate2
      | closed rc =>
        have := halive (t, ReadEvent.closed rc) (List.mem_cons_self _ _)
        simp [ReadEvent.isClosed] at this

/-- C4 (amended): for every event trace of a child that never exits (alive,
possibly silent — every iteration sees a poll with no data or a line, never
child exit) in which some iteration starts after the 7200-second wall-clock
ceiling, the read loop of `_execute_with_progress_bars` ends in the timeout
outcome: `process.terminate()` is called, a timeout error escapes, and
`execute_bulk_download` reports `(False, "Download timed out after 2 hours")`
instead of hanging — but the stream handles are closed exactly when the child
exits within the bare `process.wait(timeout=5)` grace period; a child that
survives the terminate signal for 5 seconds makes that `wait` raise before the
handle-closing lines, which are then skipped (see the counterexample). -/
theorem claim_C4_hard_ceiling (start : Nat) (waitExits : Bool)
    (events : List (Nat × ReadEvent)) (st : LoopState)
    (halive : ∀ e ∈ events, e.2.isClosed = false)
    (hlate : ∃ e ∈ events, start + hardTimeout < e.1) :
    runLoop start waitExits events st = LoopOutcome.timedOut true waitExits ∧
    executeBulkDownloadFiltered start waitExits events st
      = some (false, DownloadMessage.timedOutAfterTwoHours) := by
  have hrun := runLoop_timeout start waitExits events st halive hlate
  refine ⟨hrun, ?_⟩
  unfold executeBulkDownloadFiltered
  rw [hrun]

/-- C4 witness: a silent child (two empty polls, the second after the ceiling)
that exits within the 5-second grace period is timed out with its handles
closed, and even one that survives the grace period is still reported as a
timeout failure. -/
theorem claim_C4_hard_ceiling_witness :
    runLoop 0 true [(1, ReadEvent.noData), (7300, ReadEvent.noData)] initLoopState
      = LoopOutcome.timedOut true true ∧
    executeBulkDownloadFiltered 0 false [(1, ReadEvent.noData), (7300, ReadEvent.noData)]
      initLoopState = some (false, DownloadMessage.timedOutAfterTwoHours) :=
  ⟨(claim_C4_hard_ceiling 0 true [(1, ReadEvent.noData), (7300, ReadEvent.noData)]
      initLoopState (by decide) ⟨(7300, ReadEvent.noData), by decide, by decide⟩).1,
   (claim_C4_hard_ceiling 0 false [(1, ReadEvent.noData), (7300, ReadEvent.noData)]
      initLoopState (by decide) ⟨(7300, ReadEvent.noData), by decide, by decide⟩).2⟩

/-- C4 counterexample: for a silent child that survives `process.terminate()`
past the 5-second `process.wait(timeout=5)` grace period (`waitExits = false`),
the timeout outcome has `handlesClosed = false` — the `wait` raises before
`master_file.close()` / `os.close(master)` are reached — refuting the claim's
unconditional "stream handles are closed". -/
theorem claim_C4_counterexample :
    runLoop 0 false [(7300, ReadEvent.noData)] initLoopState
      = LoopOutcome.timedOut true false ∧
    LoopOutcome.timedOut true false ≠ LoopOutcome.timedOut true true := by decide

theorem batchStep_results (timeoutS : Nat) (acc : BatchCounters)
    (pr : Project × CmdOutcome) :
    (batchStep timeoutS acc pr).results
      = acc.results ++ [addSingleProject timeoutS pr.1 pr.2] := by
  unfold batchStep
  split <;> rfl

theorem batch_results (timeoutS : Nat) :
    ∀ (pairs : List (Project × CmdOutcome)) (acc : BatchCounters),
      (pairs.foldl (batchStep timeoutS) acc).results
        = acc.results ++ pairs.map fun pr => addSingleProject timeoutS pr.1 pr.2
  | [], acc => by simp
  | pr :: rest, acc => by
    rw [List.foldl_cons, batch_results timeoutS rest, batchStep_results, List.map_cons]
    simp

/-- C9: the batch driver processes every project sequentially — the recorded
per-project results are exactly the per-project outcomes of
`_add_single_project_with_lock`, in input order and one per project,
independent of how any individual project fared — while a timeout or an
unexpected exception in one project's `tx add remote` yields a per-project
failure tuple (`success = false`, `resources_added = 0`, message captured). -/
theorem claim_C9_sequential_batch (timeoutS : Nat)
    (pairs : List (Project × CmdOutcome)) :
    (generate_config_for_projects timeoutS pairs).results
      = (pairs.map fun pr => addSingleProject timeoutS pr.1 pr.2) ∧
    (generate_config_for_projects timeoutS pairs).results.length = pairs.length ∧
    (∀ pr ∈ pairs, pr.2 = CmdOutcome.timeout →
      addSingleProject timeoutS pr.1 pr.2
        = (pr.1.slug, false, AddErrMsg.timeoutAfter timeoutS, 0)) ∧
    (∀ pr ∈ pairs, ∀ m, pr.2 = CmdOutcome.exc m →
      addSingleProject timeoutS pr.1 pr.2
        = (pr.1.slug, false, AddErrMsg.exceptionMsg m, 0)) := by
  have h1 : (generate_config_for_projects timeoutS pairs).results
      = pairs.map fun pr => addSingleProject timeoutS pr.1 pr.2 := by
    unfold generate_config_for_projects
    rw [batch_results]
    rfl
  refine ⟨h1, by rw [h1]; simp, ?_, ?_⟩
  · rintro pr - h
    rw [h]
    rfl
  · rintro pr - m h
    rw [h]
    rfl

/-- C9 witness: in a concrete batch where the first project times out, both
projects are processed in order and the first yields the failure tuple. -/
theorem claim_C9_sequential_batch_witness :
    (generate_config_for_projects 300
        [(⟨"a".data⟩, CmdOutcome.timeout),
         (⟨"b".data⟩, CmdOutcome.completed 0 ("[o:x]".data) [])]).results.length = 2 ∧
    addSingleProject 300 ⟨"a".data⟩ CmdOutcome.timeout
      = ("a".data, false, AddErrMsg.timeoutAfter 300, 0) := by
  have h := claim_C9_sequential_batch 300
    [(⟨"a".data⟩, CmdOutcome.timeout),
     (⟨"b".data⟩, CmdOutcome.completed 0 ("[o:x]".data) [])]
  exact ⟨h.2.1, h.2.2.1 (⟨"a".data⟩, CmdOutcome.timeout) (by decide) rfl⟩

/-- C5 (amended): the cleanup phase releasing the log handles runs
unconditionally on every exit path of `run`, and `generate_download_report` is
invoked exactly on runs that reach the download phase; runs that stop earlier
(validation/discovery failure, no projects, setup failure, configuration
failure or zero configured projects) end without attempting a report, and even
on the reporting path the file write succeeds only when its own guarded write
does. -/
theorem claim_C5_run_cleanup_report (env : RunEnv) :
    (runPipeline env).cleanupRun = true ∧
    ((runPipeline env).reportAttempted = true ↔ reachesReporting env) ∧
    (reachesReporting env →
      (runPipeline env).reportWritten = env.reportWriteOk ∧
      (runPipeline env).finalStatus = some env.downloadSuccess) := by
  obtain ⟨v, dok, disc, sok, skip, gok, n, ds, rok⟩ := env
  unfold runPipeline reachesReporting
  dsimp only
  cases v <;> cases dok <;> cases sok <;> cases skip <;> cases gok <;>
    by_cases hd : disc = [] <;> by_cases hn : n = 0 <;>
    simp_all

/-- C5 witness: a fully successful run attempts and writes the report and
carries the download status. -/
theorem claim_C5_run_cleanup_report_witness :
    (runPipeline wC5Env).reportWritten = true ∧
    (runPipeline wC5Env).finalStatus = some true :=
  (claim_C5_run_cleanup_report wC5Env).2.2 (by unfold reachesReporting; decide)

/-- C5 counterexample: when token validation raises, the run stops in phase 1
with no report attempted (refuting "a written report file regardless of where
in the pipeline execution stopped"), while the cleanup still runs. -/
theorem claim_C5_counterexample :
    (runPipeline ceC5Env).reportAttempted = false ∧
    (runPipeline ceC5Env).cleanupRun = true := by decide

end TxBulk
